import Mathlib

/-!
Shallow embedding of `src/lib/sentiment/sentiment-analyzer.js` (class
`SentimentAnalyzer`): the in-memory vocabulary construction
(`loadVocabulary` / `addVocabulary`), the scoring scan (`getSentiment`)
and score normalisation (`normalize`).

Modelling conventions:
* JavaScript objects used as dictionaries become association lists
  `List (String × ℚ)` with JavaScript property-write semantics
  (`objSet`): an existing key is updated in place, a missing key is
  appended.  Objects produced by `JSON.parse` have unique keys, so
  theorems about dictionaries carry `Nodup` hypotheses on the key list.
* JavaScript numbers are modelled by `ℚ`.  The non-finite values
  (`NaN`, `±Infinity`) that this source can produce — from `0/0`,
  `x/0` and `negator * undefined` — are modelled by `Option ℚ`, with
  `none` standing for a non-finite value, at the two result positions
  where the source can produce them (the `comparative` field and the
  `score` field of a word-score entry).
* `normalize` uses `Math.sqrt`, modelled over the real numbers.
* Result fields the source leaves absent on the degraded path
  (`range`, `wordScores`) are `Option` fields, `none` when absent.
-/

namespace SA

/-- One entry of the `wordScores` array pushed by `getSentiment`.
The `score` field is `Option ℚ` because the branch that reads
`this.vocabulary[token[0]]` stores `negator * this.vocabulary[lowerCased]`
where `this.vocabulary[lowerCased]` is `undefined`, i.e. `NaN` (`none`). -/
structure WordScore where
  word : String
  score : Option ℚ
deriving DecidableEq

/-- The mutable locals of the scoring loop in `getSentiment`:
`score`, `negator`, `nrHits`, `wordScores`. -/
structure ScanState where
  score : ℚ
  negator : ℚ
  nrHits : ℕ
  wordScores : List WordScore
deriving DecidableEq

/-- The object returned by `getSentiment`.  `range` and `wordScores` are
absent (`none`) on the degraded (no-vocabulary) path. -/
structure SentimentResult where
  score : ℚ
  numWords : ℕ
  numHits : ℕ
  range : Option ℝ
  comparative : Option ℚ
  type : String
  language : String
  wordScores : Option (List WordScore)

/-- The fields of a `SentimentAnalyzer` instance that `getSentiment`
reads: `settings.language`, `settings.type`, `vocabulary` (which is
`undefined`, i.e. `none`, when loading failed), `vocabularyStem`,
`negations`, `negationPunctuations` and the optional `stemmer`. -/
structure Analyzer where
  language : String
  type : String
  vocabulary : Option (List (String × ℚ))
  vocabularyStem : List (String × ℚ)
  negations : List String
  negationPunctuations : List String
  stemmer : Option (String → List String)

/-- JavaScript property write `obj[k] = v` on an object viewed as an
ordered association list: an existing key keeps its position and gets
the new value, a missing key is appended at the end. -/
def objSet : List (String × ℚ) → String → ℚ → List (String × ℚ)
  | [], k, v => [(k, v)]
  | p :: rest, k, v => if p.1 = k then (k, v) :: rest else p :: objSet rest k v

/-- The method `addVocabulary`: every key of `this.dict` is written into
`this.vocabulary` (`this.vocabulary[key] = this.dict[key]`), in key
order. -/
def addVocabulary (vocabulary dict : List (String × ℚ)) : List (String × ℚ) :=
  dict.foldl (fun acc kv => objSet acc kv.1 kv.2) vocabulary

/-- Body of the loop in `loadVocabulary` that builds `vocabularyStem`:
`tokenizeAndStem(word)` is computed and, when it has exactly one token,
`vocabularyStem[tokens[0]] = vocabulary[word]`.  The written value is
the entry's own value `kv.2`, which equals `vocabulary[word]` because
object keys are unique. -/
def stemStep (stem : String → List String) (acc : List (String × ℚ))
    (kv : String × ℚ) : List (String × ℚ) :=
  match stem kv.1 with
  | [t] => objSet acc t kv.2
  | _ => acc

/-- Derivation of `vocabularyStem` from the (already merged) vocabulary
in `loadVocabulary`, iterating `Object.keys(this.vocabulary)` in order. -/
def buildVocabularyStem (stem : String → List String)
    (vocabulary : List (String × ℚ)) : List (String × ℚ) :=
  vocabulary.foldl (stemStep stem) []

/-- The in-memory part of `loadVocabulary` after the file reads: given
the parsed base vocabulary (`none` when the read threw), the optional
override dict and the optional stemmer, produce `(vocabulary,
vocabularyStem)`.  When a vocabulary is present the dict is merged
first (`addVocabulary`) and only then is `vocabularyStem` derived. -/
def loadVocabularyTables (base dict : Option (List (String × ℚ)))
    (stem : Option (String → List String)) :
    Option (List (String × ℚ)) × List (String × ℚ) :=
  match base with
  | none => (none, [])
  | some v =>
      let v2 := match dict with
        | some d => addVocabulary v d
        | none => v
      let vstem := match stem with
        | some s => buildVocabularyStem s v2
        | none => []
      (some v2, vstem)

/-- JavaScript `token.toLowerCase()`: character-wise lowercasing of the
string. -/
def jsToLowerCase (s : String) : String :=
  String.mk (s.data.map Char.toLower)

/-- JavaScript `token[0]`: the first character of the string, as a
one-character string; on the empty string the index read yields
`undefined`, and using it as a property key coerces it to the string
`"undefined"`. -/
def jsIndex0 (s : String) : String :=
  match s.data with
  | [] => "undefined"
  | c :: _ => String.mk [c]

/-- JavaScript `n[0]` where `n` is a number (the source's
`tokens.length[0]`): a number has no index properties, so the read
yields `undefined` (`none`). -/
def jsNumberIndex (_n _i : ℕ) : Option ℚ := none

/-- JavaScript `<` with a possibly-`undefined` left operand:
`undefined < b` coerces `undefined` to `NaN` and every comparison with
`NaN` is `false`. -/
def jsLt (a : Option ℚ) (b : ℚ) : Bool :=
  match a with
  | none => false
  | some x => decide (x < b)

/-- JavaScript division as used for `comparative`: division by zero
produces `NaN` or `±Infinity`, i.e. a non-finite value (`none`). -/
def jsDiv (x y : ℚ) : Option ℚ :=
  if y = 0 then none else some (x / y)

/-- Initial values of the scoring loop's locals:
`score = 0`, `negator = 1`, `nrHits = 0`, `wordScores = []`. -/
def initialState : ScanState :=
  { score := 0, negator := 1, nrHits := 0, wordScores := [] }

/-- One iteration of the `words.forEach(token => ...)` loop of
`getSentiment`, translated branch by branch from the source:
negator check, negation-punctuation check, exact vocabulary lookup on
the lowercased token, then the stemmer branch with its lookup of
`this.vocabulary[token[0]]` and the guard
`tokens.length === 1 && tokens.length[0] < 2`. -/
def scanStep (negations negationPunctuations : List String)
    (vocab vocabStem : List (String × ℚ))
    (stemmer : Option (String → List String))
    (st : ScanState) (token : String) : ScanState :=
  let lowerCased := jsToLowerCase token
  if lowerCased ∈ negations then
    { st with negator := -1, nrHits := st.nrHits + 1 }
  else if lowerCased ∈ negationPunctuations then
    { st with negator := 1 }
  else
    match vocab.lookup lowerCased with
    | some w =>
        { st with
            score := st.score + st.negator * w
            nrHits := st.nrHits + 1
            wordScores := st.wordScores ++
              [{ word := lowerCased, score := some (st.negator * w) }] }
    | none =>
        match stemmer with
        | none => st
        | some stem =>
            let tokens := stem lowerCased
            match vocab.lookup (jsIndex0 token) with
            | some w =>
                { st with
                    score := st.score + st.negator * w
                    nrHits := st.nrHits + 1
                    wordScores := st.wordScores ++
                      [{ word := jsIndex0 token, score := none }] }
            | none =>
                if tokens.length == 1 && jsLt (jsNumberIndex tokens.length 0) 2 then
                  match vocabStem.lookup (tokens.headD "") with
                  | some w =>
                      { st with
                          score := st.score + st.negator * w
                          nrHits := st.nrHits + 1
                          wordScores := st.wordScores ++
                            [{ word := jsIndex0 token, score := some (st.negator * w) }] }
                  | none => st
                else st

/-- The method `normalize(score, alpha = 15)`:
`score / Math.sqrt(score * score + alpha)` followed by clamping to
`[-1, 1]`. -/
noncomputable def normalize (score alpha : ℝ) : ℝ :=
  let normScore := score / Real.sqrt (score * score + alpha)
  if normScore < -1 then -1
  else if normScore > 1 then 1
  else normScore

/-- The method `getSentiment`, on an utterance already supplied as a
token array (the `Array.isArray(utterance)` case, which skips the
tokenizer).  Degraded path when `this.vocabulary` is absent, otherwise
the scoring scan followed by result assembly. -/
noncomputable def getSentiment (a : Analyzer) (words : List String) :
    SentimentResult :=
  match a.vocabulary with
  | none =>
      { score := 0
        numWords := words.length
        numHits := 0
        range := none
        comparative := some 0
        type := a.type
        language := a.language
        wordScores := none }
  | some vocab =>
      let final := words.foldl
        (scanStep a.negations a.negationPunctuations vocab
          a.vocabularyStem a.stemmer) initialState
      { score := final.score
        numWords := words.length
        numHits := final.nrHits
        range := some (normalize (final.score : ℝ) 15)
        comparative := jsDiv final.score (words.length : ℚ)
        type := a.type
        language := a.language
        wordScores := some final.wordScores }

/-- One loop iteration of `getSentiment` as a transformer on the pair
(analyzer state, loop locals).  The body reads `this.negations`,
`this.negationPunctuations`, `this.vocabulary`, `this.vocabularyStem`
and `this.stemmer` from the current analyzer state on every iteration
and contains no assignment to any `this.*` field, so the analyzer
component it returns is the one it was given. -/
def scanStepS (p : Analyzer × ScanState) (token : String) :
    Analyzer × ScanState :=
  (p.1, scanStep p.1.negations p.1.negationPunctuations
    (p.1.vocabulary.getD []) p.1.vocabularyStem p.1.stemmer p.2 token)

/-- The method `getSentiment` as a state transformer on the analyzer,
making the (absence of) mutation of `this` explicit: it returns the
analyzer state after the call together with the result. -/
noncomputable def getSentimentS (a : Analyzer) (words : List String) :
    Analyzer × SentimentResult :=
  match a.vocabulary with
  | none =>
      (a, { score := 0
            numWords := words.length
            numHits := 0
            range := none
            comparative := some 0
            type := a.type
            language := a.language
            wordScores := none })
  | some _ =>
      let pr := words.foldl scanStepS (a, initialState)
      (pr.1,
        { score := pr.2.score
          numWords := words.length
          numHits := pr.2.nrHits
          range := some (normalize (pr.2.score : ℝ) 15)
          comparative := jsDiv pr.2.score (words.length : ℚ)
          type := pr.1.type
          language := pr.1.language
          wordScores := some pr.2.wordScores })

/-- A concrete stemmer for witnesses: it stems `"goods"` to `["good"]`
and leaves every other word unchanged. -/
def toyStemmer : String → List String :=
  fun s => if s = "goods" then ["good"] else [s]

/-- A concrete base vocabulary for witnesses. -/
def toyVocab : List (String × ℚ) := [("good", 3), ("bad", -2)]

/-- A concrete analyzer with a loaded vocabulary, stem table derived
through `buildVocabularyStem`, a negator and a negation punctuation. -/
def toyAnalyzer : Analyzer :=
  { language := "en"
    type := "senticon"
    vocabulary := some toyVocab
    vocabularyStem := buildVocabularyStem toyStemmer toyVocab
    negations := ["not"]
    negationPunctuations := [","]
    stemmer := some toyStemmer }

/-- A concrete analyzer on the degraded path: no vocabulary was
loaded. -/
def degradedAnalyzer : Analyzer :=
  { language := "xx"
    type := "senticon"
    vocabulary := none
    vocabularyStem := []
    negations := []
    negationPunctuations := []
    stemmer := none }

/-! Branch characterisations of the scoring-loop body. -/

theorem scanStep_of_negator {n p : List String} {v vs : List (String × ℚ)}
    {s : Option (String → List String)} {st : ScanState} {t : String}
    (h : jsToLowerCase t ∈ n) :
    scanStep n p v vs s st t = { st with negator := -1, nrHits := st.nrHits + 1 } := by
  simp [scanStep, h]

theorem scanStep_of_punct {n p : List String} {v vs : List (String × ℚ)}
    {s : Option (String → List String)} {st : ScanState} {t : String}
    (h1 : jsToLowerCase t ∉ n) (h2 : jsToLowerCase t ∈ p) :
    scanStep n p v vs s st t = { st with negator := 1 } := by
  simp [scanStep, h1, h2]

theorem scanStep_of_vocab {n p : List String} {v vs : List (String × ℚ)}
    {s : Option (String → List String)} {st : ScanState} {t : String} {w : ℚ}
    (h1 : jsToLowerCase t ∉ n) (h2 : jsToLowerCase t ∉ p)
    (h3 : v.lookup (jsToLowerCase t) = some w) :
    scanStep n p v vs s st t =
      { st with
          score := st.score + st.negator * w
          nrHits := st.nrHits + 1
          wordScores := st.wordScores ++
            [{ word := jsToLowerCase t, score := some (st.negator * w) }] } := by
  simp [scanStep, h1, h2, h3]

theorem scanStep_of_no_stemmer {n p : List String} {v vs : List (String × ℚ)}
    {st : ScanState} {t : String}
    (h1 : jsToLowerCase t ∉ n) (h2 : jsToLowerCase t ∉ p)
    (h3 : v.lookup (jsToLowerCase t) = none) :
    scanStep n p v vs none st t = st := by
  simp [scanStep, h1, h2, h3]

theorem scanStep_of_stemmer_char {n p : List String} {v vs : List (String × ℚ)}
    {f : String → List String} {st : ScanState} {t : String} {w : ℚ}
    (h1 : jsToLowerCase t ∉ n) (h2 : jsToLowerCase t ∉ p)
    (h3 : v.lookup (jsToLowerCase t) = none)
    (h4 : v.lookup (jsIndex0 t) = some w) :
    scanStep n p v vs (some f) st t =
      { st with
          score := st.score + st.negator * w
          nrHits := st.nrHits + 1
          wordScores := st.wordScores ++
            [{ word := jsIndex0 t, score := none }] } := by
  simp [scanStep, h1, h2, h3, h4]

/-- When neither lookup of the stemmer branch finds anything, nothing
happens: the guard `tokens.length === 1 && tokens.length[0] < 2` never
holds because `tokens.length[0]` is `undefined`. -/
theorem scanStep_of_stemmer_miss {n p : List String} {v vs : List (String × ℚ)}
    {f : String → List String} {st : ScanState} {t : String}
    (h1 : jsToLowerCase t ∉ n) (h2 : jsToLowerCase t ∉ p)
    (h3 : v.lookup (jsToLowerCase t) = none)
    (h4 : v.lookup (jsIndex0 t) = none) :
    scanStep n p v vs (some f) st t = st := by
  simp [scanStep, h1, h2, h3, h4, jsLt, jsNumberIndex]

/-! Hit counting and negator-state lemmas about the loop body. -/

theorem scanStep_nrHits_le (n p : List String) (v vs : List (String × ℚ))
    (s : Option (String → List String)) (st : ScanState) (t : String) :
    (scanStep n p v vs s st t).nrHits ≤ st.nrHits + 1 := by
  by_cases h1 : jsToLowerCase t ∈ n
  · simp [scanStep_of_negator h1]
  · by_cases h2 : jsToLowerCase t ∈ p
    · simp [scanStep_of_punct h1 h2]
    · cases h3 : v.lookup (jsToLowerCase t) with
      | some w => simp [scanStep_of_vocab h1 h2 h3]
      | none =>
        cases s with
        | none => simp [scanStep_of_no_stemmer h1 h2 h3]
        | some f =>
          cases h4 : v.lookup (jsIndex0 t) with
          | some w => simp [scanStep_of_stemmer_char h1 h2 h3 h4]
          | none => simp [scanStep_of_stemmer_miss h1 h2 h3 h4]

theorem scanStep_negator_of_not_mem {n p : List String} {v vs : List (String × ℚ)}
    {s : Option (String → List String)} {st : ScanState} {t : String}
    (h1 : jsToLowerCase t ∉ n) (h2 : jsToLowerCase t ∉ p) :
    (scanStep n p v vs s st t).negator = st.negator := by
  cases h3 : v.lookup (jsToLowerCase t) with
  | some w => simp [scanStep_of_vocab h1 h2 h3]
  | none =>
    cases s with
    | none => simp [scanStep_of_no_stemmer h1 h2 h3]
    | some f =>
      cases h4 : v.lookup (jsIndex0 t) with
      | some w => simp [scanStep_of_stemmer_char h1 h2 h3 h4]
      | none => simp [scanStep_of_stemmer_miss h1 h2 h3 h4]

theorem scanStep_negator_pm (n p : List String) (v vs : List (String × ℚ))
    (s : Option (String → List String)) (st : ScanState) (t : String)
    (h : st.negator = 1 ∨ st.negator = -1) :
    (scanStep n p v vs s st t).negator = 1 ∨
      (scanStep n p v vs s st t).negator = -1 := by
  by_cases h1 : jsToLowerCase t ∈ n
  · right; simp [scanStep_of_negator h1]
  · by_cases h2 : jsToLowerCase t ∈ p
    · left; simp [scanStep_of_punct h1 h2]
    · rw [scanStep_negator_of_not_mem h1 h2]; exact h

theorem foldl_scanStep_nrHits_le (n p : List String) (v vs : List (String × ℚ))
    (s : Option (String → List String)) :
    ∀ (l : List String) (st : ScanState),
      (l.foldl (scanStep n p v vs s) st).nrHits ≤ st.nrHits + l.length := by
  intro l
  induction l with
  | nil => intro st; simp
  | cons t rest ih =>
    intro st
    have h1 := ih (scanStep n p v vs s st t)
    have h2 := scanStep_nrHits_le n p v vs s st t
    simp only [List.foldl_cons, List.length_cons]
    omega

theorem foldl_scanStep_negator_pm (n p : List String) (v vs : List (String × ℚ))
    (s : Option (String → List String)) :
    ∀ (l : List String) (st : ScanState),
      (st.negator = 1 ∨ st.negator = -1) →
      ((l.foldl (scanStep n p v vs s) st).negator = 1 ∨
        (l.foldl (scanStep n p v vs s) st).negator = -1) := by
  intro l
  induction l with
  | nil => intro st h; simpa using h
  | cons t rest ih =>
    intro st h
    simpa only [List.foldl_cons] using
      ih (scanStep n p v vs s st t) (scanStep_negator_pm n p v vs s st t h)

/-- The loop of `getSentiment`, viewed as a state transformer, returns
the analyzer it was given. -/
theorem foldl_scanStepS_fst (l : List String) (pr : Analyzer × ScanState) :
    (l.foldl scanStepS pr).1 = pr.1 := by
  induction l generalizing pr with
  | nil => rfl
  | cons t rest ih => simpa only [List.foldl_cons] using ih (scanStepS pr t)

/-! Dictionary lemmas: property writes, the override merge and the
stem-table derivation. -/

theorem lookup_cons_self (k : String) (v1 : ℚ) (rest : List (String × ℚ)) :
    List.lookup k ((k, v1) :: rest) = some v1 := by
  simp [List.lookup]

theorem lookup_cons_ne (k k1 : String) (v1 : ℚ) (rest : List (String × ℚ))
    (h : k ≠ k1) : List.lookup k ((k1, v1) :: rest) = List.lookup k rest := by
  have hb : (k == k1) = false := beq_eq_false_iff_ne.2 h
  simp [List.lookup, hb]

theorem lookup_objSet_self (m : List (String × ℚ)) (k : String) (v : ℚ) :
    (objSet m k v).lookup k = some v := by
  induction m with
  | nil => simp [objSet, List.lookup]
  | cons q rest ih =>
    obtain ⟨k1, v1⟩ := q
    by_cases h : k1 = k
    · simp [objSet, h, lookup_cons_self]
    · rw [objSet, if_neg h, lookup_cons_ne k k1 v1 _ (Ne.symm h)]
      exact ih

theorem lookup_objSet_ne (m : List (String × ℚ)) (k k' : String) (v : ℚ)
    (h : k' ≠ k) : (objSet m k v).lookup k' = m.lookup k' := by
  induction m with
  | nil =>
    rw [show objSet [] k v = [(k, v)] from rfl, lookup_cons_ne k' k v _ h]
  | cons q rest ih =>
    obtain ⟨k1, v1⟩ := q
    by_cases hk : k1 = k
    · rw [objSet, if_pos hk, lookup_cons_ne k' k v _ h, hk,
        lookup_cons_ne k' k v1 _ h]
    · by_cases hk' : k' = k1
      · subst hk'
        rw [objSet, if_neg hk, lookup_cons_self, lookup_cons_self]
      · rw [objSet, if_neg hk, lookup_cons_ne k' k1 v1 _ hk',
          lookup_cons_ne k' k1 v1 _ hk']
        exact ih

theorem map_fst_objSet (m : List (String × ℚ)) (k : String) (v : ℚ) :
    (objSet m k v).map Prod.fst =
      if k ∈ m.map Prod.fst then m.map Prod.fst
      else m.map Prod.fst ++ [k] := by
  induction m with
  | nil => simp [objSet]
  | cons q rest ih =>
    obtain ⟨k1, v1⟩ := q
    by_cases h : k1 = k
    · simp [objSet, h]
    · simp only [objSet, h, if_false, List.map_cons]
      rw [ih]
      by_cases hm : k ∈ rest.map Prod.fst
      · rw [if_pos hm, if_pos (by simp [hm])]
      · rw [if_neg hm, if_neg (by simp [hm, Ne.symm h]), List.cons_append]

theorem nodup_keys_objSet (m : List (String × ℚ)) (k : String) (v : ℚ)
    (h : (m.map Prod.fst).Nodup) : ((objSet m k v).map Prod.fst).Nodup := by
  rw [map_fst_objSet]
  by_cases hm : k ∈ m.map Prod.fst
  · rwa [if_pos hm]
  · rw [if_neg hm]
    simp [List.nodup_append, h, hm]

theorem lookup_addVocabulary_not_mem (base d : List (String × ℚ)) (k : String)
    (h : k ∉ d.map Prod.fst) :
    (addVocabulary base d).lookup k = base.lookup k := by
  induction d generalizing base with
  | nil => rfl
  | cons q rest ih =>
    obtain ⟨k1, v1⟩ := q
    simp only [List.map_cons, List.mem_cons, not_or] at h
    simp only [addVocabulary, List.foldl_cons]
    rw [show rest.foldl (fun acc kv => objSet acc kv.1 kv.2) (objSet base k1 v1) =
          addVocabulary (objSet base k1 v1) rest from rfl,
        ih (objSet base k1 v1) h.2]
    exact lookup_objSet_ne base k1 k v1 h.1

theorem lookup_addVocabulary_mem (base d : List (String × ℚ)) (k : String) (v : ℚ)
    (hnd : (d.map Prod.fst).Nodup) (hmem : (k, v) ∈ d) :
    (addVocabulary base d).lookup k = some v := by
  induction d generalizing base with
  | nil => exact absurd hmem (List.not_mem_nil _)
  | cons q rest ih =>
    obtain ⟨k1, v1⟩ := q
    simp only [List.map_cons, List.nodup_cons] at hnd
    simp only [addVocabulary, List.foldl_cons]
    rw [show rest.foldl (fun acc kv => objSet acc kv.1 kv.2) (objSet base k1 v1) =
          addVocabulary (objSet base k1 v1) rest from rfl]
    rcases List.mem_cons.1 hmem with he | hm
    · have hk : k = k1 := congrArg Prod.fst he
      have hv : v = v1 := congrArg Prod.snd he
      subst hk; subst hv
      rw [lookup_addVocabulary_not_mem _ _ _ hnd.1]
      exact lookup_objSet_self base k v
    · exact ih (objSet base k1 v1) hnd.2 hm

theorem nodup_keys_addVocabulary (base d : List (String × ℚ))
    (h : (base.map Prod.fst).Nodup) :
    ((addVocabulary base d).map Prod.fst).Nodup := by
  induction d generalizing base with
  | nil => exact h
  | cons q rest ih =>
    simp only [addVocabulary, List.foldl_cons]
    exact ih (objSet base q.1 q.2) (nodup_keys_objSet base q.1 q.2 h)

theorem lookup_of_mem_nodup (l : List (String × ℚ))
    (h : (l.map Prod.fst).Nodup) (p : String × ℚ) (hp : p ∈ l) :
    l.lookup p.1 = some p.2 := by
  induction l with
  | nil => exact absurd hp (List.not_mem_nil _)
  | cons q rest ih =>
    obtain ⟨k1, v1⟩ := q
    simp only [List.map_cons, List.nodup_cons] at h
    rcases List.mem_cons.1 hp with he | hm
    · subst he
      exact lookup_cons_self _ _ _
    · have hne : p.1 ≠ k1 := by
        intro e
        exact h.1 (e ▸ List.mem_map_of_mem Prod.fst hm)
      rw [lookup_cons_ne _ _ _ _ hne]
      exact ih h.2 hm

theorem lookup_some_mem (l : List (String × ℚ)) (k : String) (v : ℚ)
    (h : l.lookup k = some v) : (k, v) ∈ l := by
  induction l with
  | nil => simp [List.lookup] at h
  | cons q rest ih =>
    obtain ⟨k1, v1⟩ := q
    by_cases he : k = k1
    · subst he
      rw [lookup_cons_self] at h
      have hv : v1 = v := Option.some.inj h
      subst hv
      exact List.mem_cons_self _ _
    · rw [lookup_cons_ne _ _ _ _ he] at h
      exact List.mem_cons_of_mem _ (ih h)

theorem foldl_stemStep_lookup (f : String → List String) (w t : String) (c : ℚ) :
    ∀ (l : List (String × ℚ)) (acc : List (String × ℚ)),
      (∀ q ∈ l, q.1 = w → q.2 = c) →
      (∀ q ∈ l, q.1 ≠ w → f q.1 ≠ [t]) →
      f w = [t] →
      ((∃ q ∈ l, q.1 = w) ∨ acc.lookup t = some c) →
      (l.foldl (stemStep f) acc).lookup t = some c := by
  intro l
  induction l with
  | nil =>
    intro acc _ _ _ hd
    rcases hd with ⟨q, hq, _⟩ | h
    · exact absurd hq (List.not_mem_nil q)
    · simpa using h
  | cons q rest ih =>
    intro acc hvals huniq hstem hd
    simp only [List.foldl_cons]
    by_cases hq : q.1 = w
    · have hv : q.2 = c := hvals q (List.mem_cons_self q rest) hq
      have hstep : stemStep f acc q = objSet acc t c := by
        rw [stemStep, hq, hstem, hv]
      rw [hstep]
      exact ih (objSet acc t c)
        (fun p hp => hvals p (List.mem_cons_of_mem q hp))
        (fun p hp => huniq p (List.mem_cons_of_mem q hp))
        hstem (Or.inr (lookup_objSet_self acc t c))
    · have hne : f q.1 ≠ [t] := huniq q (List.mem_cons_self q rest) hq
      have hpres : (stemStep f acc q).lookup t = acc.lookup t := by
        rw [stemStep]
        cases hf : f q.1 with
        | nil => rfl
        | cons u us =>
          cases us with
          | nil =>
            have hut : t ≠ u := by
              intro e
              exact hne (by rw [hf, e])
            exact lookup_objSet_ne acc u t q.2 hut
          | cons u2 us2 => rfl
      refine ih (stemStep f acc q)
        (fun p hp => hvals p (List.mem_cons_of_mem q hp))
        (fun p hp => huniq p (List.mem_cons_of_mem q hp))
        hstem ?_
      rcases hd with ⟨q', hq', hq'w⟩ | hacc
      · rcases List.mem_cons.1 hq' with he | hm
        · exact absurd (he ▸ hq'w) hq
        · exact Or.inl ⟨q', hm, hq'w⟩
      · exact Or.inr (hpres.trans hacc)

/-- Lookup in the derived stem table, for a word that is the unique
owner of its stem among the vocabulary keys. -/
theorem buildVocabularyStem_lookup (f : String → List String)
    (l : List (String × ℚ)) (w t : String) (c : ℚ)
    (hvals : ∀ q ∈ l, q.1 = w → q.2 = c)
    (huniq : ∀ q ∈ l, q.1 ≠ w → f q.1 ≠ [t])
    (hstem : f w = [t])
    (hw : ∃ q ∈ l, q.1 = w) :
    (buildVocabularyStem f l).lookup t = some c :=
  foldl_stemStep_lookup f w t c l [] hvals huniq hstem (Or.inl hw)

/-! Lemmas about `normalize`. -/

theorem normalize_eq_clamp (s a : ℝ) :
    normalize s a = max (-1) (min 1 (s / Real.sqrt (s * s + a))) := by
  rw [normalize]
  set x := s / Real.sqrt (s * s + a) with hx
  by_cases h1 : x < -1
  · rw [if_pos h1, min_eq_right (by linarith), max_eq_left (by linarith)]
  · rw [if_neg h1]
    by_cases h2 : x > 1
    · rw [if_pos h2, min_eq_left (by linarith), max_eq_right (by norm_num)]
    · rw [if_neg h2, min_eq_right (by linarith), max_eq_right (by linarith)]

theorem normalize_bounds (s a : ℝ) : -1 ≤ normalize s a ∧ normalize s a ≤ 1 := by
  rw [normalize_eq_clamp]
  exact ⟨le_max_left _ _, max_le (by norm_num) (min_le_left _ _)⟩

theorem normalize_zero (a : ℝ) : normalize 0 a = 0 := by
  rw [normalize_eq_clamp]
  norm_num

theorem div_sqrt_mono (a : ℝ) (ha : 0 < a) {s1 s2 : ℝ} (h : s1 ≤ s2) :
    s1 / Real.sqrt (s1 * s1 + a) ≤ s2 / Real.sqrt (s2 * s2 + a) := by
  have hq1 : 0 < Real.sqrt (s1 * s1 + a) :=
    Real.sqrt_pos.2 (by nlinarith [mul_self_nonneg s1])
  have hq2 : 0 < Real.sqrt (s2 * s2 + a) :=
    Real.sqrt_pos.2 (by nlinarith [mul_self_nonneg s2])
  rw [div_le_div_iff₀ hq1 hq2]
  rcases le_or_lt 0 s1 with hs1 | hs1
  · have hs2 : (0:ℝ) ≤ s2 := le_trans hs1 h
    calc s1 * Real.sqrt (s2 * s2 + a)
        = Real.sqrt (s1 * s1) * Real.sqrt (s2 * s2 + a) := by
          rw [Real.sqrt_mul_self hs1]
      _ = Real.sqrt ((s1 * s1) * (s2 * s2 + a)) :=
          (Real.sqrt_mul (mul_self_nonneg s1) _).symm
      _ ≤ Real.sqrt ((s2 * s2) * (s1 * s1 + a)) :=
          Real.sqrt_le_sqrt (by
            nlinarith [mul_nonneg
              (sub_nonneg.2 (mul_self_le_mul_self hs1 h)) ha.le])
      _ = Real.sqrt (s2 * s2) * Real.sqrt (s1 * s1 + a) :=
          Real.sqrt_mul (mul_self_nonneg s2) _
      _ = s2 * Real.sqrt (s1 * s1 + a) := by rw [Real.sqrt_mul_self hs2]
  · rcases le_or_lt 0 s2 with hs2 | hs2
    · have hle : s1 * Real.sqrt (s2 * s2 + a) ≤ 0 :=
        mul_nonpos_iff.2 (Or.inr ⟨hs1.le, hq2.le⟩)
      have hge : 0 ≤ s2 * Real.sqrt (s1 * s1 + a) := mul_nonneg hs2 hq1.le
      linarith
    · have hns2 : (0:ℝ) ≤ -s2 := by linarith
      have hns1 : (0:ℝ) ≤ -s1 := by linarith
      have key : (-s2) * Real.sqrt (s1 * s1 + a) ≤ (-s1) * Real.sqrt (s2 * s2 + a) := by
        calc (-s2) * Real.sqrt (s1 * s1 + a)
            = Real.sqrt ((-s2) * (-s2)) * Real.sqrt (s1 * s1 + a) := by
              rw [Real.sqrt_mul_self hns2]
          _ = Real.sqrt (((-s2) * (-s2)) * (s1 * s1 + a)) :=
              (Real.sqrt_mul (mul_self_nonneg _) _).symm
          _ ≤ Real.sqrt (((-s1) * (-s1)) * (s2 * s2 + a)) :=
              Real.sqrt_le_sqrt (by
                nlinarith [mul_nonneg
                  (sub_nonneg.2 (mul_self_le_mul_self hns2 (neg_le_neg h))) ha.le])
          _ = Real.sqrt ((-s1) * (-s1)) * Real.sqrt (s2 * s2 + a) :=
              Real.sqrt_mul (mul_self_nonneg _) _
          _ = (-s1) * Real.sqrt (s2 * s2 + a) := by rw [Real.sqrt_mul_self hns1]
      nlinarith [key]

theorem normalize_mono (a : ℝ) (ha : 0 < a) {s1 s2 : ℝ} (h : s1 ≤ s2) :
    normalize s1 a ≤ normalize s2 a := by
  rw [normalize_eq_clamp, normalize_eq_clamp]
  exact max_le_max le_rfl (min_le_min le_rfl (div_sqrt_mono a ha h))

/-- The degraded path of `getSentiment`, as a reusable helper. -/
theorem getSentiment_of_vocab_none (a : Analyzer) (words : List String)
    (h : a.vocabulary = none) :
    getSentiment a words =
      { score := 0
        numWords := words.length
        numHits := 0
        range := none
        comparative := some 0
        type := a.type
        language := a.language
        wordScores := none } := by
  unfold getSentiment
  rw [h]

/-! Claim theorems. -/

/-- C1 (code behaviour at the failing input): for the token "goods" every
premise of the claim holds — the lowercased token is no negator, no
negation punctuation and no exact lexicon key, stemming is enabled and
stems it to exactly the one token "good", which has a stemmed-lexicon
entry of weight 3 — yet the scan contributes nothing: score 0, no hit,
no WordScore entry.  The source's guard
`tokens.length === 1 && tokens.length[0] < 2` indexes a number, so it is
never true and the stemmed-fallback branch is unreachable. -/
theorem c1_stem_fallback_unreachable :
    jsToLowerCase "goods" ∉ toyAnalyzer.negations ∧
    jsToLowerCase "goods" ∉ toyAnalyzer.negationPunctuations ∧
    toyVocab.lookup (jsToLowerCase "goods") = none ∧
    toyAnalyzer.stemmer = some toyStemmer ∧
    toyStemmer (jsToLowerCase "goods") = ["good"] ∧
    toyAnalyzer.vocabularyStem.lookup "good" = some 3 ∧
    (getSentiment toyAnalyzer ["goods"]).score = 0 ∧
    (getSentiment toyAnalyzer ["goods"]).numHits = 0 ∧
    (getSentiment toyAnalyzer ["goods"]).wordScores = some [] :=
  ⟨by decide, by decide, by decide, rfl, by decide, by decide,
   by decide, by decide, by decide⟩

/-- C2 (code behaviour at the failing input): on the empty token
sequence the lexicon-loaded path returns score 0, numWords 0 and
numHits 0, but computes `comparative` as `score / words.length = 0 / 0`,
which in JavaScript is NaN (`none` in the embedding), not the claimed 0;
only the degraded path returns `comparative = 0`. -/
theorem c2_empty_input_comparative :
    (getSentiment toyAnalyzer []).score = 0 ∧
    (getSentiment toyAnalyzer []).numWords = 0 ∧
    (getSentiment toyAnalyzer []).numHits = 0 ∧
    (getSentiment toyAnalyzer []).comparative = none ∧
    (getSentiment degradedAnalyzer []).comparative = some 0 := by
  refine ⟨?_, ?_, ?_, ?_, ?_⟩ <;> decide

/-- C3: if no lexicon was successfully loaded, `getSentiment` returns,
for every input token sequence, score 0, numHits 0, comparative 0, no
`range` field, and numWords equal to the input length.  The embedding is
a total function, so the call cannot throw. -/
theorem c3_degraded_path (a : Analyzer) (words : List String)
    (h : a.vocabulary = none) :
    getSentiment a words =
      { score := 0
        numWords := words.length
        numHits := 0
        range := none
        comparative := some 0
        type := a.type
        language := a.language
        wordScores := none } :=
  getSentiment_of_vocab_none a words h

theorem c3_degraded_path_witness :
    getSentiment degradedAnalyzer ["foo", "bar"] =
      { score := 0
        numWords := 2
        numHits := 0
        range := none
        comparative := some 0
        type := "senticon"
        language := "xx"
        wordScores := none } :=
  c3_degraded_path degradedAnalyzer ["foo", "bar"] rfl

/-- C4: a token whose lowercased form is in the negator set assigns the
multiplier -1 and counts one hit, leaving score and wordScores
unchanged; a token whose lowercased form is (not a negator and) in the
negation-punctuation set resets the multiplier to +1, with hits, score
and wordScores unchanged; every other token leaves the multiplier
untouched, so the multiplier state persists until cleared. -/
theorem c4_negation_and_punctuation (n p : List String)
    (v vs : List (String × ℚ)) (s : Option (String → List String))
    (st : ScanState) (t : String) :
    (jsToLowerCase t ∈ n →
      scanStep n p v vs s st t =
        { st with negator := -1, nrHits := st.nrHits + 1 }) ∧
    (jsToLowerCase t ∉ n → jsToLowerCase t ∈ p →
      scanStep n p v vs s st t = { st with negator := 1 }) ∧
    (jsToLowerCase t ∉ n → jsToLowerCase t ∉ p →
      (scanStep n p v vs s st t).negator = st.negator) :=
  ⟨fun h => scanStep_of_negator h,
   fun h1 h2 => scanStep_of_punct h1 h2,
   fun h1 h2 => scanStep_negator_of_not_mem h1 h2⟩

theorem c4_negation_and_punctuation_witness :
    scanStep ["not"] [","] [] [] none initialState "not" =
      { initialState with negator := -1, nrHits := 1 } ∧
    scanStep ["not"] [","] [] [] none { initialState with negator := -1 } "," =
      { initialState with negator := 1 } ∧
    (scanStep ["not"] [","] [] [] none
      { initialState with negator := -1 } "good").negator = -1 :=
  ⟨(c4_negation_and_punctuation ["not"] [","] [] [] none initialState "not").1
      (by decide),
   (c4_negation_and_punctuation ["not"] [","] [] [] none
      { initialState with negator := -1 } ",").2.1 (by decide) (by decide),
   (c4_negation_and_punctuation ["not"] [","] [] [] none
      { initialState with negator := -1 } "good").2.2 (by decide) (by decide)⟩

/-- C5: the override merge writes every override key into the working
lexicon (overwriting on collision, adding absent keys) and leaves
non-override keys at their base values; `loadVocabulary` performs the
merge before deriving the stem table, which is therefore derived from
the merged lexicon, so for an overridden word (that owns its stem
uniquely among the merged keys) the stemmed lookup also gives the
override weight. -/
theorem c5_override_merge_before_stem (base d : List (String × ℚ))
    (f : String → List String)
    (hbase : (base.map Prod.fst).Nodup) (hd : (d.map Prod.fst).Nodup) :
    (loadVocabularyTables (some base) (some d) (some f)).1 =
      some (addVocabulary base d) ∧
    (loadVocabularyTables (some base) (some d) (some f)).2 =
      buildVocabularyStem f (addVocabulary base d) ∧
    (∀ kv ∈ d, (addVocabulary base d).lookup kv.1 = some kv.2) ∧
    (∀ k, k ∉ d.map Prod.fst →
      (addVocabulary base d).lookup k = base.lookup k) ∧
    (∀ w c t, (w, c) ∈ d → f w = [t] →
      (∀ q ∈ addVocabulary base d, q.1 ≠ w → f q.1 ≠ [t]) →
      (buildVocabularyStem f (addVocabulary base d)).lookup t = some c) := by
  refine ⟨rfl, rfl, ?_, ?_, ?_⟩
  · intro kv hkv
    exact lookup_addVocabulary_mem base d kv.1 kv.2 hd (by simpa using hkv)
  · intro k hk
    exact lookup_addVocabulary_not_mem base d k hk
  · intro w c t hmem hstem huniq
    have hmerged : (addVocabulary base d).lookup w = some c :=
      lookup_addVocabulary_mem base d w c hd hmem
    have hnodup := nodup_keys_addVocabulary base d hbase
    have hwmem : (w, c) ∈ addVocabulary base d := lookup_some_mem _ w c hmerged
    refine buildVocabularyStem_lookup f (addVocabulary base d) w t c
      ?_ huniq hstem ⟨(w, c), hwmem, rfl⟩
    intro q hq hqw
    have h1 : (addVocabulary base d).lookup q.1 = some q.2 :=
      lookup_of_mem_nodup _ hnodup q hq
    rw [hqw, hmerged] at h1
    exact (Option.some.inj h1).symm

theorem c5_override_merge_before_stem_witness :
    (addVocabulary [("good", 3)] [("good", 5)]).lookup "good" = some 5 ∧
    (buildVocabularyStem toyStemmer
      (addVocabulary [("good", 3)] [("good", 5)])).lookup "good" = some 5 := by
  have h := c5_override_merge_before_stem [("good", 3)] [("good", 5)] toyStemmer
    (by decide) (by decide)
  exact ⟨h.2.2.1 ("good", 5) (by decide),
         h.2.2.2.2 "good" 5 "good" (by decide) (by decide) (by decide)⟩

/-- C6: for positive alpha, `normalize` equals the smooth map
`score / sqrt(score * score + alpha)` clamped to the closed interval
[-1, 1], and its value lies in [-1, 1]; consequently whenever a result
of `getSentiment` carries a `range` field, that value lies in [-1, 1]. -/
theorem c6_normalize_clamp_and_range :
    (∀ (s alpha : ℝ), 0 < alpha →
      normalize s alpha = max (-1) (min 1 (s / Real.sqrt (s * s + alpha))) ∧
      -1 ≤ normalize s alpha ∧ normalize s alpha ≤ 1) ∧
    (∀ (a : Analyzer) (words : List String) (r : ℝ),
      (getSentiment a words).range = some r → -1 ≤ r ∧ r ≤ 1) := by
  constructor
  · intro s alpha _
    exact ⟨normalize_eq_clamp s alpha, normalize_bounds s alpha⟩
  · intro a words r h
    cases hv : a.vocabulary with
    | none =>
      rw [getSentiment_of_vocab_none a words hv] at h
      exact absurd h (by simp)
    | some vocab =>
      have hr : r = normalize
          (((words.foldl (scanStep a.negations a.negationPunctuations vocab
            a.vocabularyStem a.stemmer) initialState).score : ℚ) : ℝ) 15 := by
        unfold getSentiment at h
        rw [hv] at h
        exact (Option.some.inj h).symm
      rw [hr]
      exact normalize_bounds _ 15

theorem c6_normalize_clamp_and_range_witness :
    (normalize 2 15 = max (-1) (min 1 (2 / Real.sqrt (2 * 2 + 15))) ∧
      -1 ≤ normalize 2 15 ∧ normalize 2 15 ≤ 1) ∧
    (-1 ≤ normalize (((0 : ℚ) : ℝ)) 15 ∧ normalize (((0 : ℚ) : ℝ)) 15 ≤ 1) :=
  ⟨c6_normalize_clamp_and_range.1 2 15 (by norm_num),
   c6_normalize_clamp_and_range.2 toyAnalyzer []
     (normalize (((0 : ℚ) : ℝ)) 15) rfl⟩

/-- C7: `normalize 0` (at the default alpha 15) is 0, and for every
fixed positive alpha `normalize` is monotonically non-decreasing in its
score argument. -/
theorem c7_normalize_zero_and_mono :
    normalize 0 15 = 0 ∧
    ∀ (alpha s1 s2 : ℝ), 0 < alpha → s1 ≤ s2 →
      normalize s1 alpha ≤ normalize s2 alpha :=
  ⟨normalize_zero 15, fun alpha _ _ ha h => normalize_mono alpha ha h⟩

theorem c7_normalize_zero_and_mono_witness :
    normalize 0 15 = 0 ∧ normalize (-3) 15 ≤ normalize 7 15 :=
  ⟨c7_normalize_zero_and_mono.1,
   c7_normalize_zero_and_mono.2 15 (-3) 7 (by norm_num) (by norm_num)⟩

/-- C8: for every analyzer configuration and every input token sequence,
the result satisfies `numHits ≤ numWords`: each token is counted as at
most one hit (`scanStep_nrHits_le`) while `numWords` counts every input
token. -/
theorem c8_numHits_le_numWords (a : Analyzer) (words : List String) :
    (getSentiment a words).numHits ≤ (getSentiment a words).numWords := by
  cases hv : a.vocabulary with
  | none =>
    rw [getSentiment_of_vocab_none a words hv]
    exact Nat.zero_le _
  | some vocab =>
    unfold getSentiment
    rw [hv]
    simpa [initialState] using foldl_scanStep_nrHits_le a.negations
      a.negationPunctuations vocab a.vocabularyStem a.stemmer words initialState

/-- C9: `getSentiment`, viewed as a state transformer on the analyzer,
returns the analyzer state it was given: the method reads the
vocabulary, stem table, negation tables and stemmer but assigns to no
field of `this`. -/
theorem c9_getSentiment_readonly (a : Analyzer) (words : List String) :
    (getSentimentS a words).1 = a := by
  cases hv : a.vocabulary with
  | none =>
    unfold getSentimentS
    rw [hv]
  | some vocab =>
    unfold getSentimentS
    rw [hv]
    exact foldl_scanStepS_fst words (a, initialState)

/-- C10: starting from the initial multiplier +1, the negation
multiplier is +1 or -1 after any sequence of tokens, and a negator token
assigns -1 outright rather than toggling, so after two or more
consecutive negators it is still -1. -/
theorem c10_negator_always_pm_one :
    (∀ (n p : List String) (v vs : List (String × ℚ))
        (s : Option (String → List String)) (words : List String),
      (words.foldl (scanStep n p v vs s) initialState).negator = 1 ∨
        (words.foldl (scanStep n p v vs s) initialState).negator = -1) ∧
    (∀ (n p : List String) (v vs : List (String × ℚ))
        (s : Option (String → List String)) (st : ScanState) (t : String),
      jsToLowerCase t ∈ n → (scanStep n p v vs s st t).negator = -1) :=
  ⟨fun n p v vs s words =>
      foldl_scanStep_negator_pm n p v vs s words initialState (Or.inl rfl),
   fun n p v vs s st t h => by rw [scanStep_of_negator h]⟩

theorem c10_negator_always_pm_one_witness :
    (scanStep ["not"] [] [] [] none
      (scanStep ["not"] [] [] [] none initialState "not") "not").negator = -1 :=
  c10_negator_always_pm_one.2 ["not"] [] [] [] none
    (scanStep ["not"] [] [] [] none initialState "not") "not" (by decide)

end SA
